import Mathlib

/-!
Verification of the memcp retrieval/consolidation engine.

Shallow embedding of the core operations of `src/memcp` (decay pass,
duplicate scan with auto-merge, bulk contradiction screening, importance
recompute, access updates, remember/forget persistence, search validation)
as executable Lean definitions, with theorems settling the specified
properties.

Timestamps are modelled as naturals (only their order matters), float
arithmetic as exact rationals (all comparisons in the code are far from
representation boundaries), and the importance formula over the reals
(it uses log10).
-/

namespace Memcp

/-! ### Decay pass

Embeds `query_apply_decay` (src/memcp/db.py):
`UPDATE entity SET decay_weight = decay_weight * 0.9
 WHERE accessed < <datetime>$cutoff AND decay_weight > 0.1`,
invoked once per `reflect` call (src/memcp/servers/maintenance.py). -/

structure DEntity where
  accessed : Nat
  decay_weight : ℚ
  deriving DecidableEq, Repr

/-- One decay pass applied to a single entity: the SQL UPDATE's WHERE clause
decides whether the weight is multiplied by 0.9. -/
def decayStep (cutoff : Nat) (e : DEntity) : DEntity :=
  if e.accessed < cutoff ∧ (1 : ℚ)/10 < e.decay_weight then
    { e with decay_weight := e.decay_weight * (9/10) }
  else e

/-- `n` maintenance passes in sequence (each `reflect` call runs the decay
UPDATE once). -/
def decayPasses (cutoff : Nat) : Nat → DEntity → DEntity
  | 0, e => e
  | n + 1, e => decayStep cutoff (decayPasses cutoff n e)

/-- A never-accessed entity: `accessed` at epoch, `decay_weight` at its
default 1.0 (schema default in `SCHEMA_SQL`). -/
def neverAccessed : DEntity := ⟨0, 1⟩

lemma decayStep_accessed (cutoff : Nat) (e : DEntity) :
    (decayStep cutoff e).accessed = e.accessed := by
  unfold decayStep; split <;> rfl

lemma pow_nine_tenths_gt_tenth {n : Nat} (h : n ≤ 21) :
    (1 : ℚ)/10 < (9/10) ^ n := by
  have h21 : (1 : ℚ)/10 < (9/10) ^ 21 := by norm_num
  have hmono : ((9 : ℚ)/10) ^ 21 ≤ (9/10) ^ n :=
    pow_le_pow_of_le_one (by norm_num) (by norm_num) h
  exact lt_of_lt_of_le h21 hmono

lemma pow_nine_tenths_22_le : ((9 : ℚ)/10) ^ 22 ≤ 1/10 := by norm_num

/-- After `n` passes the never-accessed entity's weight is `(9/10)^min n 22`:
the guard `decay_weight > 0.1` is tested before multiplying, so the weight
takes one extra factor of 0.9 after crossing the floor. -/
lemma decay_weight_after (n : Nat) :
    (decayPasses 1 n neverAccessed).accessed = 0 ∧
    (decayPasses 1 n neverAccessed).decay_weight = (9/10 : ℚ) ^ min n 22 := by
  induction n with
  | zero =>
    refine ⟨rfl, ?_⟩
    simp [decayPasses, neverAccessed]
  | succ n ih =>
    obtain ⟨ha, hw⟩ := ih
    constructor
    · show (decayStep 1 (decayPasses 1 n neverAccessed)).accessed = 0
      rw [decayStep_accessed, ha]
    · show (decayStep 1 (decayPasses 1 n neverAccessed)).decay_weight
        = (9/10 : ℚ) ^ min (n + 1) 22
      by_cases h : n ≤ 21
      · have hgt : (1 : ℚ)/10 < (decayPasses 1 n neverAccessed).decay_weight := by
          rw [hw, min_eq_left (by omega)]
          exact pow_nine_tenths_gt_tenth h
        unfold decayStep
        rw [if_pos ⟨by rw [ha]; omega, hgt⟩]
        show (decayPasses 1 n neverAccessed).decay_weight * (9/10) = _
        rw [hw, min_eq_left (by omega), min_eq_left (by omega), ← pow_succ]
      · have h22 : min n 22 = 22 := by omega
        have hle : ¬ (1 : ℚ)/10 < (decayPasses 1 n neverAccessed).decay_weight := by
          rw [hw, h22]
          exact not_lt.mpr pow_nine_tenths_22_le
        unfold decayStep
        rw [if_neg (by tauto), hw, h22, min_eq_right (by omega)]

/-- C1 (counterexample): after 22 passes a never-accessed entity's weight is
`0.9^22 ≈ 0.0985`, which is strictly below the claimed `max(0.1, 0.9^22) = 0.1`:
the code tests the floor before multiplying, so the weight overshoots the
0.1 floor by one factor of 0.9. -/
theorem decay_floor_overshoot :
    (decayPasses 1 22 neverAccessed).decay_weight ≠ max (1/10 : ℚ) ((9/10) ^ 22) := by
  rw [(decay_weight_after 22).2, min_self,
      max_eq_left pow_nine_tenths_22_le]
  norm_num

/-- C1 (amended): one decay pass multiplies `decay_weight` by 0.9 exactly for
entities with `accessed < cutoff` and `decay_weight > 0.1`, leaves entities at
or below 0.1 unchanged, and is monotone non-increasing on non-negative
weights; for a never-accessed entity starting at 1.0, after `N` passes
`decay_weight = 0.9^min(N,22)`, which stays strictly above 0.09 but falls
below the 0.1 floor once (at `N = 22`) rather than stopping at
`max(0.1, 0.9^N)`. -/
theorem decay_pass_behavior (cutoff : Nat) (e : DEntity) :
    (e.accessed < cutoff → (1 : ℚ)/10 < e.decay_weight →
      (decayStep cutoff e).decay_weight = e.decay_weight * (9/10))
    ∧ (e.decay_weight ≤ 1/10 → decayStep cutoff e = e)
    ∧ (0 ≤ e.decay_weight → (decayStep cutoff e).decay_weight ≤ e.decay_weight)
    ∧ (∀ n, (decayPasses 1 n neverAccessed).decay_weight = (9/10 : ℚ) ^ min n 22)
    ∧ (∀ n, (9 : ℚ)/100 < (decayPasses 1 n neverAccessed).decay_weight) := by
  refine ⟨?_, ?_, ?_, fun n => (decay_weight_after n).2, ?_⟩
  · intro hacc hgt
    unfold decayStep
    rw [if_pos ⟨hacc, hgt⟩]
  · intro hle
    unfold decayStep
    rw [if_neg (by rintro ⟨-, hgt⟩; exact absurd hle (not_le.mpr hgt))]
  · intro hnn
    unfold decayStep
    split
    · show e.decay_weight * (9/10) ≤ e.decay_weight
      nlinarith
    · exact le_refl _
  · intro n
    rw [(decay_weight_after n).2]
    calc (9 : ℚ)/100 < (9/10) ^ 22 := by norm_num
    _ ≤ (9/10 : ℚ) ^ min n 22 :=
        pow_le_pow_of_le_one (by norm_num) (by norm_num) (min_le_right n 22)

/-- Witness for `decay_pass_behavior`: a stale entity at weight 1.0 decays to
0.9, and an entity already at weight 0.05 is left unchanged. -/
theorem decay_pass_behavior_witness :
    (decayStep 1 ⟨0, 1⟩).decay_weight = 1 * (9/10)
    ∧ decayStep 1 ⟨0, 1/20⟩ = ⟨0, 1/20⟩ := by
  constructor
  · exact (decay_pass_behavior 1 ⟨0, 1⟩).1 (by decide) (by norm_num)
  · exact (decay_pass_behavior 1 ⟨0, 1/20⟩).2.1 (by norm_num)

/-! ### Entity model and access update

Embeds the `entity` table of `SCHEMA_SQL` (src/memcp/db.py) and
`query_update_access`:
`UPDATE type::record("entity", $id)
 SET accessed = time::now(), access_count += 1, decay_weight = 1.0`. -/

structure Entity where
  type : String
  labels : List String
  content : String
  embedding : List ℚ
  confidence : ℚ
  source : Option String
  decay_weight : ℚ
  created : Nat
  accessed : Nat
  access_count : Nat
  context : Option String
  importance : ℚ
  user_importance : Option ℚ
  deriving DecidableEq, Repr

/-- The store's entity table, keyed by entity id. -/
def EntityStore := String → Option Entity

/-- The SET clause of `query_update_access` applied to one entity record. -/
def updateAccess (now : Nat) (e : Entity) : Entity :=
  { e with accessed := now, access_count := e.access_count + 1, decay_weight := 1 }

/-- One `query_update_access` call: the UPDATE touches only the record with
the given id (and is a no-op if that record does not exist). -/
def updateAccessInStore (now : Nat) (store : EntityStore) (id : String) : EntityStore :=
  fun j => if j = id then (store id).map (updateAccess now) else store j

/-- The access-tracking loop of `search` (src/memcp/servers/search.py):
`for r in entities: await query_update_access(ctx, extract_record_id(r['id']))`. -/
def applyAccessUpdates (now : Nat) (store : EntityStore) (ids : List String) : EntityStore :=
  ids.foldl (updateAccessInStore now) store

lemma applyAccessUpdates_not_mem (now : Nat) :
    ∀ (ids : List String) (store : EntityStore) (i : String), i ∉ ids →
      applyAccessUpdates now store ids i = store i := by
  intro ids
  induction ids with
  | nil => intro store i _; rfl
  | cons a l ih =>
    intro store i hi
    have hia : i ≠ a := fun h => hi (h ▸ List.mem_cons_self a l)
    have hil : i ∉ l := fun h => hi (List.mem_cons_of_mem a h)
    show applyAccessUpdates now (updateAccessInStore now store a) l i = store i
    rw [ih _ _ hil]
    unfold updateAccessInStore
    rw [if_neg hia]

lemma applyAccessUpdates_mem (now : Nat) :
    ∀ (ids : List String) (store : EntityStore) (i : String), ids.Nodup → i ∈ ids →
      applyAccessUpdates now store ids i = (store i).map (updateAccess now) := by
  intro ids
  induction ids with
  | nil => intro _ _ _ h; cases h
  | cons a l ih =>
    intro store i hnd hi
    rw [List.nodup_cons] at hnd
    show applyAccessUpdates now (updateAccessInStore now store a) l i = _
    rcases List.mem_cons.mp hi with rfl | hil
    · rw [applyAccessUpdates_not_mem now l _ i hnd.1]
      unfold updateAccessInStore
      rw [if_pos rfl]
    · rw [ih _ _ hnd.2 hil]
      unfold updateAccessInStore
      by_cases hia : i = a
      · subst hia; exact absurd hil hnd.1
      · rw [if_neg hia]

/-- C6: for every id in the search result set, exactly the access-metadata
fields are mutated — `access_count + 1`, `accessed = now`,
`decay_weight = 1.0` — while content, embedding, labels, type, confidence,
importance, context (and source, created, user_importance) are unchanged;
ids outside the result set are untouched. -/
theorem search_access_update_frame (now : Nat) (e : Entity) (store : EntityStore)
    (ids : List String) (i : String) :
    ((updateAccess now e).access_count = e.access_count + 1
      ∧ (updateAccess now e).accessed = now
      ∧ (updateAccess now e).decay_weight = 1
      ∧ (updateAccess now e).content = e.content
      ∧ (updateAccess now e).embedding = e.embedding
      ∧ (updateAccess now e).labels = e.labels
      ∧ (updateAccess now e).type = e.type
      ∧ (updateAccess now e).confidence = e.confidence
      ∧ (updateAccess now e).importance = e.importance
      ∧ (updateAccess now e).context = e.context
      ∧ (updateAccess now e).source = e.source
      ∧ (updateAccess now e).created = e.created
      ∧ (updateAccess now e).user_importance = e.user_importance)
    ∧ (i ∉ ids → applyAccessUpdates now store ids i = store i)
    ∧ (ids.Nodup → i ∈ ids →
        applyAccessUpdates now store ids i = (store i).map (updateAccess now)) :=
  ⟨⟨rfl, rfl, rfl, rfl, rfl, rfl, rfl, rfl, rfl, rfl, rfl, rfl, rfl⟩,
   applyAccessUpdates_not_mem now ids store i,
   fun hnd hi => applyAccessUpdates_mem now ids store i hnd hi⟩

/-- A concrete sample entity used by witnesses. -/
def sampleEntity : Entity :=
  ⟨"concept", ["demo"], "the sky is blue", [1, 0], 1, none, 4/10, 3, 7, 2, none, 1/2, none⟩

/-- A concrete one-entity store used by witnesses. -/
def sampleStore : EntityStore :=
  fun j => if j = "e1" then some sampleEntity else none

/-- Witness for `search_access_update_frame`: updating access for result set
`["e1"]` rewrites exactly the entity `"e1"` and leaves `"e2"` alone. -/
theorem search_access_update_frame_witness :
    applyAccessUpdates 9 sampleStore ["e1"] "e1" = (sampleStore "e1").map (updateAccess 9)
    ∧ applyAccessUpdates 9 sampleStore ["e1"] "e2" = sampleStore "e2" := by
  constructor
  · exact (search_access_update_frame 9 sampleEntity sampleStore ["e1"] "e1").2.2
      (by decide) (by decide)
  · exact (search_access_update_frame 9 sampleEntity sampleStore ["e1"] "e2").2.1
      (by decide)

/-- Python's `str.strip()` on the character list: drop leading and trailing
whitespace (the tools test `not s.strip()` to reject blank inputs). -/
def pyStrip (s : String) : String :=
  String.mk (((s.data.dropWhile Char.isWhitespace).reverse.dropWhile
    Char.isWhitespace).reverse)

/-! ### forget

Embeds `forget` (src/memcp/servers/persist.py) and `query_delete_entity`
(src/memcp/db.py): after the non-empty-id check, the entity record is
deleted (`DELETE` is a silent no-op when the record does not exist) and the
success string is returned unconditionally. -/

def deleteEntity (store : EntityStore) (id : String) : EntityStore :=
  fun j => if j = id then none else store j

def forget (store : EntityStore) (entity_id : String) :
    Except String (EntityStore × String) :=
  if entity_id = "" ∨ pyStrip entity_id = "" then .error "ID cannot be empty"
  else .ok (deleteEntity store entity_id, "Removed " ++ entity_id)

/-- C10: for a non-empty (non-whitespace) id, `forget` succeeds with the
message `"Removed " ++ id` whether or not the entity exists, and when the
entity does not exist the store is left unchanged. -/
theorem forget_nonexistent_noop (store : EntityStore) (id : String)
    (h : ¬ pyStrip id = "") :
    forget store id = .ok (deleteEntity store id, "Removed " ++ id)
    ∧ (store id = none → deleteEntity store id = store) := by
  constructor
  · unfold forget
    rw [if_neg]
    rintro (rfl | htrim)
    · exact h (by decide)
    · exact h htrim
  · intro hnone
    funext j
    unfold deleteEntity
    by_cases hj : j = id
    · subst hj; rw [if_pos rfl, hnone]
    · rw [if_neg hj]

/-- Witness for `forget_nonexistent_noop`: deleting the absent id `"ghost"`
from the sample store returns the success message and leaves the store
unchanged. -/
theorem forget_nonexistent_noop_witness :
    forget sampleStore "ghost" = .ok (deleteEntity sampleStore "ghost", "Removed " ++ "ghost")
    ∧ deleteEntity sampleStore "ghost" = sampleStore := by
  have h := forget_nonexistent_noop sampleStore "ghost" (by decide)
  exact ⟨h.1, h.2 (by decide)⟩

/-! ### search validation

Embeds the validation prelude and provider-call sequence of `search`
(src/memcp/servers/search.py): the empty-query and limit checks run before
`embed(query)` and before `query_hybrid_search`; on success every returned
row gets an access update. Provider calls are recorded in an explicit
trace. -/

inductive PCall where
  | embedCall : PCall
  | hybridSearch : PCall
  | accessUpdate : String → PCall
  deriving DecidableEq, Repr

structure SRow where
  id : String
  content : String
  deriving DecidableEq, Repr

def searchModel (embedP : String → List ℚ)
    (hybridP : String → List ℚ → List String → Int → Option String → List SRow)
    (detectCtx : Option String → Option String)
    (query : String) (labels : Option (List String)) (limit : Int)
    (context : Option String) :
    Except String (List SRow) × List PCall :=
  if query = "" ∨ pyStrip query = "" then (.error "Query cannot be empty", [])
  else if limit < 1 ∨ 100 < limit then (.error "Limit must be between 1 and 100", [])
  else
    let emb := embedP query
    let rows := hybridP query emb (labels.getD []) limit (detectCtx context)
    (.ok rows, PCall.embedCall :: PCall.hybridSearch ::
      rows.map (fun r => PCall.accessUpdate r.id))

lemma pyStrip_empty : pyStrip "" = "" := by decide

/-- C9: a whitespace-only query or a limit outside `[1,100]` yields a
validation error with an empty provider-call trace (no embedding, no index
or store query); otherwise these two checks pass and the call proceeds to
the providers. -/
theorem search_validation (embedP : String → List ℚ)
    (hybridP : String → List ℚ → List String → Int → Option String → List SRow)
    (detectCtx : Option String → Option String)
    (query : String) (labels : Option (List String)) (limit : Int)
    (context : Option String) :
    (pyStrip query = "" ∨ limit < 1 ∨ 100 < limit →
      ∃ msg, searchModel embedP hybridP detectCtx query labels limit context
        = (.error msg, []))
    ∧ (¬ pyStrip query = "" → 1 ≤ limit → limit ≤ 100 →
      ∃ rows, searchModel embedP hybridP detectCtx query labels limit context
        = (.ok rows, PCall.embedCall :: PCall.hybridSearch ::
            rows.map (fun r => PCall.accessUpdate r.id))) := by
  constructor
  · intro h
    unfold searchModel
    by_cases hq : query = "" ∨ pyStrip query = ""
    · rw [if_pos hq]; exact ⟨_, rfl⟩
    · have hlim : limit < 1 ∨ 100 < limit := by
        rcases h with htrim | hl | hl
        · exact absurd (Or.inr htrim) hq
        · exact Or.inl hl
        · exact Or.inr hl
      rw [if_neg hq, if_pos hlim]
      exact ⟨_, rfl⟩
  · intro hq h1 h100
    unfold searchModel
    rw [if_neg, if_neg]
    · exact ⟨_, rfl⟩
    · rintro (hl | hl) <;> omega
    · rintro (rfl | htrim)
      · exact hq pyStrip_empty
      · exact hq htrim

/-- Witness for `search_validation`: a whitespace-only query is rejected
before any provider call, and a well-formed query passes validation. -/
theorem search_validation_witness :
    (∃ msg, searchModel (fun _ => []) (fun _ _ _ _ _ => []) (fun c => c)
      " " none 5 none = (.error msg, []))
    ∧ (∃ rows, searchModel (fun _ => []) (fun _ _ _ _ _ => []) (fun c => c)
      "dog" none 5 none = (.ok rows, PCall.embedCall :: PCall.hybridSearch ::
        rows.map (fun r => PCall.accessUpdate r.id))) := by
  constructor
  · exact (search_validation (fun _ => []) (fun _ _ _ _ _ => []) (fun c => c)
      " " none 5 none).1 (Or.inl (by decide))
  · exact (search_validation (fun _ => []) (fun _ _ _ _ _ => []) (fun c => c)
      "dog" none 5 none).2 (by decide) (by decide) (by decide)

/-! ### Relations and importance recompute

Embeds the `relates` table of `SCHEMA_SQL`, `query_get_entity_connectivity`
(in-degree plus out-degree) and `query_recalculate_importance`
(src/memcp/db.py):
`importance = 0.3*connectivity_score + 0.3*access_score + 0.4*user_score`
with `connectivity_score = min(1.0, connectivity / 10.0)`,
`access_score = min(1.0, math.log10(access_count + 1) / 3.0)`,
`user_score = user_imp if user_imp is not None else 0.5`. -/

structure RelRecord where
  inId : String
  outId : String
  rel_type : String
  weight : ℚ
  deriving DecidableEq, Repr

/-- `query_get_entity_connectivity`: relations where the entity is the `in`
endpoint plus relations where it is the `out` endpoint. -/
def relationCount (rels : List RelRecord) (id : String) : ℕ :=
  (rels.countP (fun r => r.inId == id)) + (rels.countP (fun r => r.outId == id))

noncomputable def connectivity_score (relation_count : ℕ) : ℝ :=
  min 1 ((relation_count : ℝ) / 10)

noncomputable def access_score (access_count : ℕ) : ℝ :=
  min 1 (Real.logb 10 ((access_count : ℝ) + 1) / 3)

noncomputable def importanceScore (relation_count access_count : ℕ)
    (user_importance : Option ℝ) : ℝ :=
  0.3 * connectivity_score relation_count + 0.3 * access_score access_count
    + 0.4 * user_importance.getD 0.5

/-- `query_recalculate_importance` for an entity with the given stored
relations, access count and optional user importance. -/
noncomputable def recalculatedImportance (rels : List RelRecord) (id : String)
    (access_count : ℕ) (user_importance : Option ℝ) : ℝ :=
  importanceScore (relationCount rels id) access_count user_importance

/-- C5: the recomputed importance is
`0.3·min(1, relation_count/10) + 0.3·min(1, log10(access_count+1)/3) +
0.4·user_score` with `relation_count` the in-degree plus out-degree and
`user_score` the user importance when set (else 0.5), and it always lies in
`[0,1]` when the user importance (if set) does. -/
theorem importance_in_unit_interval (rels : List RelRecord) (id : String)
    (a : ℕ) (u : Option ℝ) (hu : ∀ v, u = some v → 0 ≤ v ∧ v ≤ 1) :
    recalculatedImportance rels id a u
      = 0.3 * min 1 ((relationCount rels id : ℝ) / 10)
        + 0.3 * min 1 (Real.logb 10 ((a : ℝ) + 1) / 3)
        + 0.4 * u.getD 0.5
    ∧ 0 ≤ recalculatedImportance rels id a u
    ∧ recalculatedImportance rels id a u ≤ 1 := by
  have hs1l : (0 : ℝ) ≤ connectivity_score (relationCount rels id) :=
    le_min zero_le_one (by positivity)
  have hs1r : connectivity_score (relationCount rels id) ≤ 1 := min_le_left _ _
  have hlog : (0 : ℝ) ≤ Real.logb 10 ((a : ℝ) + 1) :=
    Real.logb_nonneg (by norm_num)
      (by have h0 : (0 : ℝ) ≤ (a : ℝ) := Nat.cast_nonneg a; linarith)
  have hs2l : (0 : ℝ) ≤ access_score a := le_min zero_le_one (by positivity)
  have hs2r : access_score a ≤ 1 := min_le_left _ _
  have hs3 : 0 ≤ u.getD 0.5 ∧ u.getD (0.5 : ℝ) ≤ 1 := by
    cases u with
    | none => exact ⟨by norm_num, by norm_num⟩
    | some v => exact hu v rfl
  refine ⟨rfl, ?_, ?_⟩
  · unfold recalculatedImportance importanceScore
    nlinarith [hs1l, hs2l, hs3.1]
  · unfold recalculatedImportance importanceScore
    nlinarith [hs1r, hs2r, hs3.2]

/-- Witness for `importance_in_unit_interval`: an entity with no relations,
no accesses and no user importance gets an importance in `[0,1]`. -/
theorem importance_in_unit_interval_witness :
    0 ≤ recalculatedImportance [] "e1" 0 none
    ∧ recalculatedImportance [] "e1" 0 none ≤ 1 := by
  have h := importance_in_unit_interval [] "e1" 0 none (fun v hv => nomatch hv)
  exact ⟨h.2.1, h.2.2⟩

/-! ### Duplicate scan and auto-merge (reflect)

Embeds the `find_similar` loop of `reflect`
(src/memcp/servers/maintenance.py, lines 68-116): iterate entities,
skip ids already deleted this pass, fetch neighbour candidates, and for
each candidate at or above the threshold form the sorted pair key, skip
seen pairs, then either auto-merge (delete the loser, remember its id) or
report the pair. The neighbour provider (`query_similar_by_embedding`) is
an explicit function parameter. -/

structure MEntity where
  id : String
  content : String
  access_count : Nat
  accessed : Nat
  deriving DecidableEq, Repr

/-- A row returned by `query_similar_by_embedding` (id, content,
access_count, accessed, sim). -/
structure Candidate where
  id : String
  content : String
  access_count : Nat
  accessed : Nat
  sim : ℚ
  deriving DecidableEq, Repr

/-- `pair_key = (id1, id2) if id1 < id2 else (id2, id1)`. Python compares
strings lexicographically by code point, which is the lexicographic order on
the character lists (written on `.data` so that it evaluates). -/
def pairKey (i1 i2 : String) : String × String :=
  if i1.data < i2.data then (i1, i2) else (i2, i1)

structure PassState where
  seen_pairs : List (String × String)
  deleted_ids : List String
  similar_pairs : List (String × String × ℚ)
  merges : List (String × String)
  merged : Nat
  deriving DecidableEq, Repr

def initPassState : PassState := ⟨[], [], [], [], 0⟩

/-- Lines 99-102: the id deleted by an auto-merge. The candidate wins
(entity deleted) iff it has the higher `access_count`, or an equal count
and a strictly more recent `accessed`. -/
def toDelete (e : MEntity) (c : Candidate) : String :=
  if e.access_count < c.access_count
      ∨ (c.access_count = e.access_count ∧ e.accessed < c.accessed)
  then e.id else c.id

/-- The id of the pair that is kept by an auto-merge. -/
def survivor (e : MEntity) (c : Candidate) : String :=
  if toDelete e c = e.id then c.id else e.id

/-- Lines 83-116: handling of one neighbour candidate of `e`. The `merges`
field records each (deleted, kept) event. -/
def processCandidate (th : ℚ) (autoMerge : Bool) (e : MEntity)
    (st : PassState) (c : Candidate) : PassState :=
  if c.id ∈ st.deleted_ids then st
  else if th ≤ c.sim then
    if pairKey e.id c.id ∈ st.seen_pairs then st
    else if autoMerge then
      { st with seen_pairs := pairKey e.id c.id :: st.seen_pairs,
                deleted_ids := toDelete e c :: st.deleted_ids,
                merges := (toDelete e c, survivor e c) :: st.merges,
                merged := st.merged + 1 }
    else
      { st with seen_pairs := pairKey e.id c.id :: st.seen_pairs,
                similar_pairs := (e.id, c.id, c.sim) :: st.similar_pairs }
  else st

/-- Lines 75-81: handling of one entity of the outer loop. -/
def processEntity (nb : MEntity → List Candidate) (th : ℚ) (am : Bool)
    (st : PassState) (e : MEntity) : PassState :=
  if e.id ∈ st.deleted_ids then st
  else (nb e).foldl (processCandidate th am e) st

/-- The whole `find_similar` phase of one `reflect` call. -/
def findSimilarPass (ents : List MEntity) (nb : MEntity → List Candidate)
    (th : ℚ) (am : Bool) : PassState :=
  ents.foldl (processEntity nb th am) initPassState

lemma processCandidate_skip_deleted (th : ℚ) (am : Bool) (e : MEntity)
    (st : PassState) (c : Candidate) (h : c.id ∈ st.deleted_ids) :
    processCandidate th am e st c = st := by
  unfold processCandidate; rw [if_pos h]

lemma processEntity_skip_deleted (nb : MEntity → List Candidate) (th : ℚ)
    (am : Bool) (st : PassState) (e : MEntity) (h : e.id ∈ st.deleted_ids) :
    processEntity nb th am st e = st := by
  unfold processEntity; rw [if_pos h]

/-- C2: in auto-merge mode, a freshly processed duplicate pair deletes
exactly `toDelete e c` (the lower `access_count` loses; on a tie the less
recently accessed loses), records the merge, adds the loser's id to the
pass's removed set, and any later comparison against that id in the same
scan — as a candidate or as an outer-loop entity — is skipped. -/
theorem auto_merge_survivor (th : ℚ) (nb : MEntity → List Candidate)
    (e : MEntity) (st : PassState) (c : Candidate)
    (hdel : c.id ∉ st.deleted_ids) (hsim : th ≤ c.sim)
    (hseen : pairKey e.id c.id ∉ st.seen_pairs) :
    (processCandidate th true e st c).deleted_ids = toDelete e c :: st.deleted_ids
    ∧ (processCandidate th true e st c).merged = st.merged + 1
    ∧ (processCandidate th true e st c).merges
        = (toDelete e c, survivor e c) :: st.merges
    ∧ (c.access_count < e.access_count → toDelete e c = c.id)
    ∧ (e.access_count < c.access_count → toDelete e c = e.id)
    ∧ (e.access_count = c.access_count →
        toDelete e c = if e.accessed < c.accessed then e.id else c.id)
    ∧ (∀ c2 : Candidate, c2.id = toDelete e c →
        processCandidate th true e (processCandidate th true e st c) c2
          = processCandidate th true e st c)
    ∧ (∀ (e2 : MEntity) (st2 : PassState), e2.id ∈ st2.deleted_ids →
        processEntity nb th true st2 e2 = st2) := by
  have heq : processCandidate th true e st c =
      { st with seen_pairs := pairKey e.id c.id :: st.seen_pairs,
                deleted_ids := toDelete e c :: st.deleted_ids,
                merges := (toDelete e c, survivor e c) :: st.merges,
                merged := st.merged + 1 } := by
    unfold processCandidate
    rw [if_neg hdel, if_pos hsim, if_neg hseen, if_pos rfl]
  refine ⟨by rw [heq], by rw [heq], by rw [heq], ?_, ?_, ?_, ?_, ?_⟩
  · intro hlt
    unfold toDelete
    rw [if_neg]
    rintro (h | ⟨h, -⟩) <;> omega
  · intro hlt
    unfold toDelete
    rw [if_pos (Or.inl hlt)]
  · intro hctr
    unfold toDelete
    by_cases hacc : e.accessed < c.accessed
    · rw [if_pos (Or.inr ⟨hctr.symm, hacc⟩), if_pos hacc]
    · rw [if_neg, if_neg hacc]
      rintro (h | ⟨-, h⟩)
      · omega
      · exact hacc h
  · intro c2 hc2
    refine processCandidate_skip_deleted th true e _ c2 ?_
    rw [heq, hc2]
    exact List.mem_cons_self _ _
  · intro e2 st2 h2
    exact processEntity_skip_deleted nb th true st2 e2 h2

/-- Witness for `auto_merge_survivor`: entity `a` with `access_count = 5`
meets candidate `b` with `access_count = 2` at similarity 0.95 ≥ 0.85:
`b` is deleted, `a` survives. -/
theorem auto_merge_survivor_witness :
    (processCandidate (85/100) true ⟨"a", "alpha", 5, 0⟩ initPassState
        ⟨"b", "beta", 2, 0, 95/100⟩).deleted_ids
      = toDelete ⟨"a", "alpha", 5, 0⟩ ⟨"b", "beta", 2, 0, 95/100⟩ :: []
    ∧ toDelete ⟨"a", "alpha", 5, 0⟩ ⟨"b", "beta", 2, 0, 95/100⟩ = "b" := by
  have h := auto_merge_survivor (85/100) (fun _ => [])
    ⟨"a", "alpha", 5, 0⟩ initPassState ⟨"b", "beta", 2, 0, 95/100⟩
    (List.not_mem_nil _) (by norm_num) (List.not_mem_nil _)
  exact ⟨h.1, h.2.2.2.1 (by decide)⟩

/-! C3: pair-uniqueness of the reported duplicates. -/

/-- Canonical key of a reported pair. -/
def keyOf (p : String × String × ℚ) : String × String := pairKey p.1 p.2.1

/-- Invariant of the scan: reported pairs have pairwise distinct canonical
keys, and every reported key is in `seen_pairs`. -/
def PassInv (st : PassState) : Prop :=
  (st.similar_pairs.map keyOf).Nodup
    ∧ ∀ p ∈ st.similar_pairs, keyOf p ∈ st.seen_pairs

lemma foldl_preserves {α σ : Type _} (f : σ → α → σ) (P : σ → Prop)
    (hf : ∀ s a, P s → P (f s a)) :
    ∀ (l : List α) (s : σ), P s → P (l.foldl f s) := by
  intro l
  induction l with
  | nil => intro s hs; exact hs
  | cons a t ih => intro s hs; exact ih (f s a) (hf s a hs)

lemma processCandidate_inv (th : ℚ) (am : Bool) (e : MEntity)
    (st : PassState) (c : Candidate) (h : PassInv st) :
    PassInv (processCandidate th am e st c) := by
  unfold processCandidate
  split_ifs with h1 h2 h3 h4
  · exact h
  · exact h
  · refine ⟨h.1, fun p hp => List.mem_cons_of_mem _ (h.2 p hp)⟩
  · constructor
    · refine List.nodup_cons.mpr ⟨?_, h.1⟩
      intro hmem
      rcases List.mem_map.mp hmem with ⟨p, hp, hkey⟩
      have hk2 : keyOf p = pairKey e.id c.id := hkey
      exact h3 (hk2 ▸ h.2 p hp)
    · intro p hp
      rcases List.mem_cons.mp hp with rfl | hp
      · exact List.mem_cons_self _ _
      · exact List.mem_cons_of_mem _ (h.2 p hp)
  · exact h

lemma processEntity_inv (nb : MEntity → List Candidate) (th : ℚ) (am : Bool)
    (st : PassState) (e : MEntity) (h : PassInv st) :
    PassInv (processEntity nb th am st e) := by
  unfold processEntity
  split
  · exact h
  · exact foldl_preserves _ PassInv
      (fun s c hs => processCandidate_inv th am e s c hs) (nb e) st h

lemma pairKey_comm (a b : String) : pairKey a b = pairKey b a := by
  unfold pairKey
  rcases lt_trichotomy a.data b.data with h | h | h
  · rw [if_pos h, if_neg (asymm h)]
  · have hab : a = b := by cases a; cases b; exact congrArg String.mk h
    subst hab; rfl
  · rw [if_neg (asymm h), if_pos h]

/-- C3: within one reflect pass, the reported duplicate pairs have pairwise
distinct canonical sorted keys; in particular if `(a,b)` is reported then no
separate `(b,a)` entry exists in the same result. -/
theorem duplicate_pairs_unique (ents : List MEntity)
    (nb : MEntity → List Candidate) (th : ℚ) :
    ((findSimilarPass ents nb th false).similar_pairs.map keyOf).Nodup
    ∧ ∀ a b s1 s2, a ≠ b →
        (a, b, s1) ∈ (findSimilarPass ents nb th false).similar_pairs →
        (b, a, s2) ∉ (findSimilarPass ents nb th false).similar_pairs := by
  have hinv : PassInv (findSimilarPass ents nb th false) :=
    foldl_preserves _ PassInv
      (fun s e hs => processEntity_inv nb th false s e hs) ents initPassState
      ⟨List.nodup_nil, fun p hp => absurd hp (List.not_mem_nil p)⟩
  refine ⟨hinv.1, fun a b s1 s2 hab h1 h2 => ?_⟩
  have hkeys : keyOf (a, b, s1) = keyOf (b, a, s2) := pairKey_comm a b
  have := List.inj_on_of_nodup_map hinv.1 h1 h2 hkeys
  exact hab (congrArg Prod.fst this)

/-- Witness for `duplicate_pairs_unique`: a concrete scan reporting the pair
`(a, b)` contains no mirrored `(b, a)` entry. -/
theorem duplicate_pairs_unique_witness :
    ("b", "a", (1 : ℚ)) ∉ (findSimilarPass [⟨"a", "alpha", 5, 0⟩]
      (fun _ => [⟨"b", "beta", 2, 0, 1⟩]) 1 false).similar_pairs := by
  refine (duplicate_pairs_unique [⟨"a", "alpha", 5, 0⟩]
      (fun _ => [⟨"b", "beta", 2, 0, 1⟩]) 1).2
      "a" "b" 1 1 (by decide) ?_
  decide

/-! ### Bulk contradiction screening

Embeds the bulk branch of `check_contradictions_tool`
(src/memcp/servers/maintenance.py, lines 156-171): a nested loop
`for i, e1 in enumerate(entities): for e2 in entities[i+1:]` computes the
cosine similarity of each pair and invokes the NLI classifier
(`check_contradiction`) only when `sim > 0.5`. The similarity provider
(`query_vector_similarity`) is an explicit function parameter. -/

structure BEntity where
  id : String
  content : String
  embedding : List ℚ
  deriving DecidableEq, Repr

/-- All pairs the nested loop iterates over (each `(e1, e2)` with `e2`
strictly after `e1` in the candidate list). -/
def consideredPairs : List BEntity → List (BEntity × BEntity)
  | [] => []
  | e :: rest => rest.map (fun e2 => (e, e2)) ++ consideredPairs rest

/-- The pairs on which `check_contradiction` is actually invoked, in loop
order: those considered pairs whose similarity exceeds 0.5. -/
def classifierCalls (sim : List ℚ → List ℚ → ℚ) : List BEntity → List (BEntity × BEntity)
  | [] => []
  | e :: rest =>
    ((rest.filter (fun e2 => decide ((1 : ℚ)/2 < sim e.embedding e2.embedding))).map
      (fun e2 => (e, e2))) ++ classifierCalls sim rest

lemma consideredPairs_mem :
    ∀ (l : List BEntity) (p : BEntity × BEntity), p ∈ consideredPairs l →
      p.1 ∈ l ∧ p.2 ∈ l := by
  intro l
  induction l with
  | nil => intro p hp; cases hp
  | cons e rest ih =>
    intro p hp
    rcases List.mem_append.mp hp with hp | hp
    · rcases List.mem_map.mp hp with ⟨e2, he2, rfl⟩
      exact ⟨List.mem_cons_self _ _, List.mem_cons_of_mem _ he2⟩
    · obtain ⟨h1, h2⟩ := ih p hp
      exact ⟨List.mem_cons_of_mem _ h1, List.mem_cons_of_mem _ h2⟩

lemma pairKey_left_inj (a : String) : Function.Injective (pairKey a) := by
  intro x y h
  unfold pairKey at h
  by_cases hx : a.data < x.data <;> by_cases hy : a.data < y.data
  · rw [if_pos hx, if_pos hy] at h
    exact (Prod.mk.injEq _ _ _ _).mp h |>.2
  · rw [if_pos hx, if_neg hy] at h
    obtain ⟨h1, h2⟩ := (Prod.mk.injEq _ _ _ _).mp h
    rw [h2, ← h1]
  · rw [if_neg hx, if_pos hy] at h
    obtain ⟨h1, h2⟩ := (Prod.mk.injEq _ _ _ _).mp h
    rw [h1, ← h2]
  · rw [if_neg hx, if_neg hy] at h
    exact (Prod.mk.injEq _ _ _ _).mp h |>.1

lemma pairKey_comp_fst (a b : String) : (pairKey a b).1 = a ∨ (pairKey a b).1 = b := by
  unfold pairKey; split
  · exact Or.inl rfl
  · exact Or.inr rfl

lemma pairKey_comp_snd (a b : String) : (pairKey a b).2 = a ∨ (pairKey a b).2 = b := by
  unfold pairKey; split
  · exact Or.inr rfl
  · exact Or.inl rfl

lemma pairKey_left_mem (a b : String) : a = (pairKey a b).1 ∨ a = (pairKey a b).2 := by
  unfold pairKey; split
  · exact Or.inl rfl
  · exact Or.inr rfl

lemma consideredPairs_keys_nodup :
    ∀ l : List BEntity, (l.map BEntity.id).Nodup →
      ((consideredPairs l).map (fun p => pairKey p.1.id p.2.id)).Nodup := by
  intro l
  induction l with
  | nil => intro _; exact List.nodup_nil
  | cons e rest ih =>
    intro hnd
    rw [List.map_cons, List.nodup_cons] at hnd
    show ((rest.map (fun e2 => (e, e2)) ++ consideredPairs rest).map
      (fun p => pairKey p.1.id p.2.id)).Nodup
    rw [List.map_append, List.map_map]
    refine List.nodup_append.mpr ⟨?_, ih hnd.2, ?_⟩
    · have : (rest.map ((fun p : BEntity × BEntity => pairKey p.1.id p.2.id)
          ∘ (fun e2 => (e, e2)))) = (rest.map BEntity.id).map (pairKey e.id) := by
        rw [List.map_map]; rfl
      rw [this]
      exact hnd.2.map (pairKey_left_inj e.id)
    · intro k hk1 hk2
      rcases List.mem_map.mp hk1 with ⟨x, hx, rfl⟩
      rcases List.mem_map.mp hk2 with ⟨p, hp, hkey⟩
      obtain ⟨hp1, hp2⟩ := consideredPairs_mem rest p hp
      have hkey2 : pairKey p.1.id p.2.id = pairKey e.id x.id := hkey
      have he_mem : e.id = p.1.id ∨ e.id = p.2.id := by
        rcases pairKey_left_mem e.id x.id with h | h
        · rw [h, ← hkey2]
          exact pairKey_comp_fst p.1.id p.2.id
        · rw [h, ← hkey2]
          exact pairKey_comp_snd p.1.id p.2.id
      rcases he_mem with h | h
      · exact hnd.1 (List.mem_map.mpr ⟨p.1, hp1, h.symm⟩)
      · exact hnd.1 (List.mem_map.mpr ⟨p.2, hp2, h.symm⟩)

/-- C4: in bulk mode the classifier is invoked only on pairs with cosine
similarity strictly above 0.5 (so never on a pair with similarity ≤ 0.5),
every classifier call is on one of the loop's considered pairs, and — for
distinct candidate ids — each unordered pair is considered at most once. -/
theorem bulk_screening_filter (sim : List ℚ → List ℚ → ℚ) (ents : List BEntity) :
    (∀ p ∈ classifierCalls sim ents, (1 : ℚ)/2 < sim p.1.embedding p.2.embedding)
    ∧ (∀ p ∈ classifierCalls sim ents, p ∈ consideredPairs ents)
    ∧ ((ents.map BEntity.id).Nodup →
        ((consideredPairs ents).map (fun p => pairKey p.1.id p.2.id)).Nodup) := by
  refine ⟨?_, ?_, consideredPairs_keys_nodup ents⟩
  · induction ents with
    | nil => intro p hp; cases hp
    | cons e rest ih =>
      intro p hp
      rcases List.mem_append.mp hp with hp | hp
      · rcases List.mem_map.mp hp with ⟨e2, he2, rfl⟩
        exact of_decide_eq_true (List.mem_filter.mp he2).2
      · exact ih p hp
  · induction ents with
    | nil => intro p hp; cases hp
    | cons e rest ih =>
      intro p hp
      rcases List.mem_append.mp hp with hp | hp
      · rcases List.mem_map.mp hp with ⟨e2, he2, rfl⟩
        exact List.mem_append_left _
          (List.mem_map.mpr ⟨e2, (List.mem_filter.mp he2).1, rfl⟩)
      · exact List.mem_append_right _ (ih p hp)

/-- Witness for `bulk_screening_filter`: a concrete two-entity candidate set
with distinct ids has pairwise-distinct considered pair keys. -/
theorem bulk_screening_filter_witness :
    ((consideredPairs [⟨"a", "x", [1]⟩, ⟨"b", "y", [0]⟩]).map
      (fun p => pairKey p.1.id p.2.id)).Nodup := by
  exact (bulk_screening_filter (fun _ _ => 1)
    [⟨"a", "x", [1]⟩, ⟨"b", "y", [0]⟩]).2.2 (by decide)

/-! ### Relation creation

Embeds `query_create_relation` (src/memcp/db.py) together with the
`relates` table's unique constraint from `SCHEMA_SQL`:
`unique_key = string::concat(array::sort([in, out]), rel_type)` with
`DEFINE INDEX unique_relation ... FIELDS unique_key UNIQUE`. The canonical
key is the sorted endpoint pair plus the relation type. The function issues
a bare `RELATE $from_rec->relates->$to_rec SET rel_type = ..., weight = ...`
with no update fallback, so a duplicate canonical key violates the UNIQUE
index: the statement is rejected by the engine (`run_query` turns the
failure into a raised ToolError) and the existing record - its weight
included - is left untouched. `none` models the rejected statement. -/

/-- The value of the schema's `unique_key` field for a stored relation. -/
def canonKey (r : RelRecord) : (String × String) × String :=
  (pairKey r.inId r.outId, r.rel_type)

/-- The canonical key a `query_create_relation(from, type, to, _)` call
targets. -/
def relKey (from_id to_id rel_type : String) : (String × String) × String :=
  (pairKey from_id to_id, rel_type)

/-- `query_create_relation`: insert a new relation record, or fail when a
record with the same canonical key exists (unique-index violation; the
failed statement writes nothing). -/
def createRelation (rels : List RelRecord) (from_id rel_type to_id : String)
    (weight : ℚ) : Option (List RelRecord) :=
  if rels.any (fun r => decide (canonKey r = relKey from_id to_id rel_type)) then
    none
  else
    some (⟨from_id, to_id, rel_type, weight⟩ :: rels)

/-- The relates table after a sequence of creation attempts,
`(from, type, to, weight)` each: a rejected statement leaves the table as
it was. -/
def applyRelOps (rels : List RelRecord) (ops : List (String × String × String × ℚ)) :
    List RelRecord :=
  ops.foldl (fun rs o => (createRelation rs o.1 o.2.1 o.2.2.1 o.2.2.2).getD rs) rels

/-- The unique-index invariant: canonical keys are pairwise distinct. -/
def KeysNodup (rels : List RelRecord) : Prop := (rels.map canonKey).Nodup

lemma createRelation_some (rels : List RelRecord) (f ty t : String) (w : ℚ)
    (rs : List RelRecord) (h : createRelation rels f ty t w = some rs) :
    rs = ⟨f, t, ty, w⟩ :: rels
      ∧ ¬ rels.any (fun r => decide (canonKey r = relKey f t ty)) = true := by
  by_cases hany : rels.any (fun r => decide (canonKey r = relKey f t ty)) = true
  · rw [createRelation, if_pos hany] at h
    exact absurd h (by simp)
  · rw [createRelation, if_neg hany] at h
    exact ⟨(Option.some.inj h).symm, hany⟩

lemma createRelation_keys (rels : List RelRecord) (f ty t : String) (w : ℚ)
    (rs : List RelRecord) (h : KeysNodup rels)
    (hc : createRelation rels f ty t w = some rs) : KeysNodup rs := by
  obtain ⟨rfl, hany⟩ := createRelation_some rels f ty t w rs hc
  unfold KeysNodup
  rw [List.map_cons, List.nodup_cons]
  refine ⟨?_, h⟩
  intro hmem
  rcases List.mem_map.mp hmem with ⟨r, hr, hkey⟩
  exact hany (List.any_eq_true.mpr ⟨r, hr, decide_eq_true hkey⟩)

lemma applyRelOp_keys (rs : List RelRecord) (o : String × String × String × ℚ)
    (h : KeysNodup rs) :
    KeysNodup ((createRelation rs o.1 o.2.1 o.2.2.1 o.2.2.2).getD rs) := by
  cases hc : createRelation rs o.1 o.2.1 o.2.2.1 o.2.2.2 with
  | none => exact h
  | some rs2 => exact createRelation_keys rs o.1 o.2.1 o.2.2.1 o.2.2.2 rs2 h hc

lemma countP_key_le_one {α β : Type _} [DecidableEq β] (f : α → β) :
    ∀ l : List α, (l.map f).Nodup → ∀ k, l.countP (fun x => decide (f x = k)) ≤ 1 := by
  intro l
  induction l with
  | nil => intro _ k; rw [List.countP_nil]; omega
  | cons a t ih =>
    intro hnd k
    rw [List.map_cons, List.nodup_cons] at hnd
    rw [List.countP_cons]
    by_cases hk : f a = k
    · have hz : t.countP (fun x => decide (f x = k)) = 0 := by
        rw [List.countP_eq_zero]
        intro x hx
        simp only [decide_eq_true_eq]
        intro hfx
        exact hnd.1 (hk ▸ hfx ▸ List.mem_map_of_mem f hx)
      rw [hz]
      split <;> omega
    · have hfalse : (decide (f a = k) : Bool) = false := decide_eq_false hk
      rw [hfalse]
      have := ih hnd.2 k
      simp only [if_neg Bool.false_ne_true]
      omega

/-- C8 (counterexample): re-creating the already-stored relation
`a -likes-> b` with a new weight does not update it - the bare RELATE hits
the `unique_relation` UNIQUE index and the statement fails instead. -/
theorem recreate_relation_fails :
    createRelation [⟨"a", "b", "likes", 1⟩] "a" "likes" "b" 2 = none := by decide

/-- C8 (amended): the canonical sorted-pair-plus-type key is symmetric in
the endpoints; a successful creation and any sequence of creation attempts
preserve key uniqueness, so at most one relation per unordered endpoint pair
per type ever exists; but re-creating an existing relation does not update
its weight - the statement fails on the unique index and the stored record,
weight included, is left unchanged. -/
theorem relation_unique_no_update (rels : List RelRecord)
    (ops : List (String × String × String × ℚ)) (f ty t : String) (w : ℚ) :
    relKey f t ty = relKey t f ty
    ∧ (KeysNodup rels → ∀ rs, createRelation rels f ty t w = some rs → KeysNodup rs)
    ∧ (KeysNodup rels → KeysNodup (applyRelOps rels ops))
    ∧ (KeysNodup rels → ∀ a b typ,
        (applyRelOps rels ops).countP
          (fun r => decide (canonKey r = (pairKey a b, typ))) ≤ 1)
    ∧ ((∃ r ∈ rels, canonKey r = relKey f t ty) →
        createRelation rels f ty t w = none
        ∧ (createRelation rels f ty t w).getD rels = rels) := by
  have hfold : KeysNodup rels → KeysNodup (applyRelOps rels ops) := fun h =>
    foldl_preserves _ KeysNodup (fun rs o hrs => applyRelOp_keys rs o hrs) ops rels h
  refine ⟨?_, fun h rs hc => createRelation_keys rels f ty t w rs h hc, hfold, ?_, ?_⟩
  · unfold relKey
    rw [pairKey_comm]
  · intro h a b typ
    exact countP_key_le_one canonKey _ (hfold h) _
  · rintro ⟨r0, hr0, hkey0⟩
    have hany : rels.any (fun r => decide (canonKey r = relKey f t ty)) = true :=
      List.any_eq_true.mpr ⟨r0, hr0, decide_eq_true hkey0⟩
    have hnone : createRelation rels f ty t w = none := by
      rw [createRelation, if_pos hany]
    exact ⟨hnone, by rw [hnone, Option.getD_none]⟩

/-- Witness for `relation_unique_no_update`: creating the reversed
`y -cites-> x` over a store already holding `x -cites-> y` hits the same
canonical key and is rejected with the store unchanged, and a two-sided
creation sequence keeps the key set duplicate-free. -/
theorem relation_unique_no_update_witness :
    (createRelation [⟨"x", "y", "cites", 3⟩] "y" "cites" "x" 4 = none
      ∧ (createRelation [⟨"x", "y", "cites", 3⟩] "y" "cites" "x" 4).getD
          [⟨"x", "y", "cites", 3⟩] = [⟨"x", "y", "cites", 3⟩])
    ∧ KeysNodup (applyRelOps [] [("a", "likes", "b", 1), ("b", "likes", "a", 2)]) := by
  constructor
  · exact (relation_unique_no_update [⟨"x", "y", "cites", 3⟩] [] "y" "cites" "x" 4).2.2.2.2
      ⟨⟨"x", "y", "cites", 3⟩, List.mem_cons_self _ _, by decide⟩
  · exact (relation_unique_no_update [] [("a", "likes", "b", 1), ("b", "likes", "a", 2)]
      "a" "likes" "b" 1).2.2.1 List.nodup_nil

/-! ### remember

Embeds `remember` (src/memcp/servers/persist.py) with `validate_entity`,
`validate_relation`, `query_upsert_entity` and `query_create_relation`
(src/memcp/db.py). All entities and relations are validated before any
store operation; then each entity is embedded and upserted in order; then
each relation is created. Every provider/store call is fallible and a
raised error aborts the remaining loop: `embedP e.content = none` models a
failure at that entity (an `embed` failure and a failed UPSERT statement
abort at the same position with the same committed prefix, so one oracle
covers both), and a relation creation fails deterministically on a
duplicate canonical key (the unique-index rejection of `createRelation`),
aborting the relation loop with the earlier creations committed. With
`detect_contradictions` the extra `embed(entity['content'])` call fails on
exactly the same inputs, and the final importance-recalculation loop
swallows its own errors and only rewrites the `importance` field, so
neither adds observable store-membership behaviour. -/

structure EntityInput where
  id : String
  content : String
  entity_type : Option String
  labels : Option (List String)
  confidence : Option ℚ
  source : Option String
  context : Option String
  importance : Option ℚ
  deriving DecidableEq, Repr

structure RelInput where
  fromId : String
  toId : String
  rel_type : String
  weight : Option ℚ
  deriving DecidableEq, Repr

/-- `validate_entity`: id and content non-empty after strip, confidence (when
given) in [0,1]; the dict/type-shape checks are enforced by typing. -/
def validateEntity (e : EntityInput) : Bool :=
  (!(pyStrip e.id == "")) && (!(pyStrip e.content == ""))
    && (match e.confidence with
        | some c => decide (0 ≤ c ∧ c ≤ 1)
        | none => true)

/-- `validate_relation`: from, to and type non-empty after strip. -/
def validateRelation (r : RelInput) : Bool :=
  (!(pyStrip r.fromId == "")) && (!(pyStrip r.toId == ""))
    && (!(pyStrip r.rel_type == ""))

/-- The store: the entity table plus the relates table. -/
structure Store where
  entities : List (String × Entity)
  relations : List RelRecord
  deriving DecidableEq, Repr

def lookupEntity : List (String × Entity) → String → Option Entity
  | [], _ => none
  | (k, v) :: rest, id => if k = id then some v else lookupEntity rest id

/-- Replace the record with the given id, or insert it. -/
def upsertRecord : List (String × Entity) → String → Entity → List (String × Entity)
  | [], id, v => [(id, v)]
  | (k, old) :: rest, id, v =>
    if k = id then (k, v) :: rest else (k, old) :: upsertRecord rest id v

lemma lookupEntity_cons (k : String) (v : Entity) (rest : List (String × Entity))
    (j : String) :
    lookupEntity ((k, v) :: rest) j = if k = j then some v else lookupEntity rest j := rfl

lemma upsertRecord_cons (k : String) (old : Entity) (rest : List (String × Entity))
    (id : String) (v : Entity) :
    upsertRecord ((k, old) :: rest) id v
      = if k = id then (k, v) :: rest else (k, old) :: upsertRecord rest id v := rfl

/-- 1/2 in lowest terms (written as an explicit fraction so concrete stores
normalize by `decide`). -/
def halfQ : ℚ := ⟨1, 2, by omega, Nat.coprime_one_left 2⟩

/-- The record written by `query_upsert_entity`: the SET clause overwrites
type, labels (deduplicated), content, embedding, confidence, source and
context, sets `user_importance` only when provided, and leaves the other
fields at their previous values (or the schema defaults for a new record). -/
def entityFromInput (e : EntityInput) (emb : List ℚ) (defaultCtx : Option String)
    (now : Nat) (old : Option Entity) : Entity :=
  ⟨e.entity_type.getD "concept",
   (e.labels.getD []).dedup,
   e.content,
   emb,
   e.confidence.getD 1,
   e.source,
   (old.getD ⟨"", [], "", [], 1, none, 1, now, now, 0, none, halfQ, none⟩).decay_weight,
   (old.getD ⟨"", [], "", [], 1, none, 1, now, now, 0, none, halfQ, none⟩).created,
   (old.getD ⟨"", [], "", [], 1, none, 1, now, now, 0, none, halfQ, none⟩).accessed,
   (old.getD ⟨"", [], "", [], 1, none, 1, now, now, 0, none, halfQ, none⟩).access_count,
   (match e.context with | some c => some c | none => defaultCtx),
   (old.getD ⟨"", [], "", [], 1, none, 1, now, now, 0, none, halfQ, none⟩).importance,
   (match e.importance with
    | some v => some v
    | none => (old.getD ⟨"", [], "", [], 1, none, 1, now, now, 0, none, halfQ, none⟩).user_importance)⟩

/-- The entity loop of `remember`: embed then upsert, aborting on the first
provider failure (the `Bool` flags whether an error was raised). -/
def upsertEntities (embedP : String → Option (List ℚ)) (defaultCtx : Option String)
    (now : Nat) : Store → List EntityInput → Store × Bool
  | st, [] => (st, false)
  | st, e :: rest =>
    (embedP e.content).elim (st, true) (fun emb =>
      upsertEntities embedP defaultCtx now
        ⟨upsertRecord st.entities e.id
          (entityFromInput e emb defaultCtx now (lookupEntity st.entities e.id)),
         st.relations⟩ rest)

inductive RemErr where
  | validation : RemErr
  | provider : RemErr
  deriving DecidableEq, Repr

/-- The relation loop of `remember`: each `query_create_relation` is a
fallible store call; the first rejected statement raises, aborting the loop
with the earlier creations committed (the `Bool` flags the error). -/
def relateLoop : List RelRecord → List RelInput → List RelRecord × Bool
  | rs, [] => (rs, false)
  | rs, r :: rest =>
    (createRelation rs r.fromId r.rel_type r.toId (r.weight.getD 1)).elim
      (rs, true) (fun rs2 => relateLoop rs2 rest)

/-- `remember`: validate everything, then the entity loop, then the relation
loop, surfacing the first provider/store error. -/
def rememberModel (embedP : String → Option (List ℚ)) (defaultCtx : Option String)
    (now : Nat) (st : Store) (ents : List EntityInput) (rels : List RelInput) :
    Store × Option RemErr :=
  if ents.all validateEntity && rels.all validateRelation then
    match upsertEntities embedP defaultCtx now st ents with
    | (st1, true) => (st1, some RemErr.provider)
    | (st1, false) =>
      match relateLoop st1.relations rels with
      | (rs, true) => (⟨st1.entities, rs⟩, some RemErr.provider)
      | (rs, false) => (⟨st1.entities, rs⟩, none)
  else (st, some RemErr.validation)

lemma relateLoop_facts :
    ∀ (rels : List RelInput) (rs : List RelRecord),
      ∀ r ∈ (relateLoop rs rels).1, r ∈ rs
        ∨ ∃ ri ∈ rels, r = ⟨ri.fromId, ri.toId, ri.rel_type, ri.weight.getD 1⟩ := by
  intro rels
  induction rels with
  | nil => intro rs r hr; exact Or.inl hr
  | cons ri rest ih =>
    intro rs r hr
    have hred : relateLoop rs (ri :: rest)
        = (createRelation rs ri.fromId ri.rel_type ri.toId (ri.weight.getD 1)).elim
            (rs, true) (fun rs2 => relateLoop rs2 rest) := rfl
    rw [hred] at hr
    cases hc : createRelation rs ri.fromId ri.rel_type ri.toId (ri.weight.getD 1) with
    | none =>
      rw [hc] at hr
      exact Or.inl hr
    | some rs2 =>
      rw [hc] at hr
      rcases ih rs2 r hr with h2 | h2
      · obtain ⟨heq, -⟩ := createRelation_some rs ri.fromId ri.rel_type ri.toId
          (ri.weight.getD 1) rs2 hc
        rw [heq] at h2
        rcases List.mem_cons.mp h2 with rfl | h3
        · exact Or.inr ⟨ri, List.mem_cons_self _ _, rfl⟩
        · exact Or.inl h3
      · obtain ⟨ri2, hri2, heq2⟩ := h2
        exact Or.inr ⟨ri2, List.mem_cons_of_mem _ hri2, heq2⟩

lemma lookupEntity_upsertRecord :
    ∀ (l : List (String × Entity)) (id : String) (v : Entity) (j : String),
      lookupEntity (upsertRecord l id v) j ≠ none →
      lookupEntity l j ≠ none ∨ j = id := by
  intro l
  induction l with
  | nil =>
    intro id v j h
    rw [show upsertRecord [] id v = [(id, v)] from rfl, lookupEntity_cons] at h
    by_cases hj : id = j
    · exact Or.inr hj.symm
    · rw [if_neg hj] at h
      exact absurd rfl h
  | cons kv rest ih =>
    intro id v j h
    obtain ⟨k, old⟩ := kv
    rw [upsertRecord_cons] at h
    rw [lookupEntity_cons]
    by_cases hk : k = id
    · rw [if_pos hk, lookupEntity_cons] at h
      by_cases hkj : k = j
      · rw [if_pos hkj]
        exact Or.inl (Option.some_ne_none old)
      · rw [if_neg hkj] at h ⊢
        exact Or.inl h
    · rw [if_neg hk, lookupEntity_cons] at h
      by_cases hkj : k = j
      · rw [if_pos hkj]
        exact Or.inl (Option.some_ne_none old)
      · rw [if_neg hkj] at h ⊢
        exact ih id v j h

lemma upsertEntities_facts (embedP : String → Option (List ℚ))
    (defaultCtx : Option String) (now : Nat) :
    ∀ (ents : List EntityInput) (st : Store),
      (upsertEntities embedP defaultCtx now st ents).1.relations = st.relations
      ∧ ∀ id, lookupEntity (upsertEntities embedP defaultCtx now st ents).1.entities id ≠ none →
          lookupEntity st.entities id ≠ none ∨ id ∈ ents.map EntityInput.id := by
  intro ents
  induction ents with
  | nil => intro st; exact ⟨rfl, fun id h => Or.inl h⟩
  | cons e rest ih =>
    intro st
    have hred : upsertEntities embedP defaultCtx now st (e :: rest)
        = (embedP e.content).elim (st, true) (fun emb =>
            upsertEntities embedP defaultCtx now
              ⟨upsertRecord st.entities e.id
                (entityFromInput e emb defaultCtx now (lookupEntity st.entities e.id)),
               st.relations⟩ rest) := rfl
    cases hemb : embedP e.content with
    | none =>
      rw [hred, hemb]
      exact ⟨rfl, fun id h => Or.inl h⟩
    | some emb =>
      rw [hred, hemb]
      obtain ⟨h1, h2⟩ := ih ⟨upsertRecord st.entities e.id
        (entityFromInput e emb defaultCtx now (lookupEntity st.entities e.id)),
        st.relations⟩
      refine ⟨h1, fun id h => ?_⟩
      rcases h2 id h with h3 | h3
      · rcases lookupEntity_upsertRecord st.entities e.id _ id h3 with h4 | h4
        · exact Or.inl h4
        · exact Or.inr (h4 ▸ List.mem_cons_self _ _)
      · exact Or.inr (List.mem_cons_of_mem _ h3)

/-- C7 (counterexample): `remember` is not atomic under provider failure.
With an embedding provider that fails on the content `"bad"`, a batch of two
entities raises a provider error on the second entity - yet the first
entity, which was not present before the call, is committed. -/
theorem remember_partial_commit :
    (rememberModel (fun s => if s = "bad" then none else some [1]) none 0
      ⟨[], []⟩
      [⟨"a", "good", none, none, none, none, none, none⟩,
       ⟨"b", "bad", none, none, none, none, none, none⟩] []).2 = some RemErr.provider
    ∧ lookupEntity (rememberModel (fun s => if s = "bad" then none else some [1]) none 0
      ⟨[], []⟩
      [⟨"a", "good", none, none, none, none, none, none⟩,
       ⟨"b", "bad", none, none, none, none, none, none⟩] []).1.entities "a" ≠ none
    ∧ lookupEntity ([] : List (String × Entity)) "a" = none := by
  refine ⟨by decide, ?_, rfl⟩
  intro h
  exact absurd h (by decide)

/-- C7 (amended): `remember` validates every entity and relation before any
store mutation, so a validation failure commits nothing; a provider or
store failure mid-batch aborts fail-fast with the error surfaced, but items
committed before the failing call remain: any id present afterwards was
present before or belongs to the input batch, any stored relation was
stored before or comes from a batch relation input, and a failure in the
entity loop leaves the relations table untouched. -/
theorem remember_failfast (embedP : String → Option (List ℚ))
    (defaultCtx : Option String) (now : Nat) (st : Store)
    (ents : List EntityInput) (rels : List RelInput) :
    ((ents.all validateEntity && rels.all validateRelation) = false →
      rememberModel embedP defaultCtx now st ents rels = (st, some RemErr.validation))
    ∧ (∀ st1, rememberModel embedP defaultCtx now st ents rels
          = (st1, some RemErr.provider) →
        (∀ id, lookupEntity st1.entities id ≠ none →
            lookupEntity st.entities id ≠ none ∨ id ∈ ents.map EntityInput.id)
        ∧ (∀ r ∈ st1.relations, r ∈ st.relations
            ∨ ∃ ri ∈ rels, r = ⟨ri.fromId, ri.toId, ri.rel_type, ri.weight.getD 1⟩)
        ∧ ((upsertEntities embedP defaultCtx now st ents).2 = true →
            st1.relations = st.relations)) := by
  constructor
  · intro hval
    unfold rememberModel
    rw [if_neg (by rw [hval]; exact Bool.false_ne_true)]
  · intro st1 hrun
    unfold rememberModel at hrun
    by_cases hval : (ents.all validateEntity && rels.all validateRelation) = true
    · rw [if_pos hval] at hrun
      have hfacts := upsertEntities_facts embedP defaultCtx now ents st
      rcases hup : upsertEntities embedP defaultCtx now st ents with ⟨st0, b⟩
      rw [hup] at hrun hfacts
      have hrels0 : st0.relations = st.relations := hfacts.1
      have hents0 : ∀ id, lookupEntity st0.entities id ≠ none →
          lookupEntity st.entities id ≠ none ∨ id ∈ ents.map EntityInput.id := hfacts.2
      cases b
      · rcases hrel : relateLoop st0.relations rels with ⟨rs, b2⟩
        have hrun2 : (match relateLoop st0.relations rels with
            | (rs, true) => ((⟨st0.entities, rs⟩ : Store), some RemErr.provider)
            | (rs, false) => ((⟨st0.entities, rs⟩ : Store), none))
            = (st1, some RemErr.provider) := hrun
        rw [hrel] at hrun2
        cases b2
        · have hrun3 : ((⟨st0.entities, rs⟩ : Store), (none : Option RemErr))
              = (st1, some RemErr.provider) := hrun2
          exact absurd (congrArg Prod.snd hrun3) (by simp)
        · have hrun3 : ((⟨st0.entities, rs⟩ : Store), some RemErr.provider)
              = (st1, some RemErr.provider) := hrun2
          have hst : (⟨st0.entities, rs⟩ : Store) = st1 := congrArg Prod.fst hrun3
          refine ⟨?_, ?_, ?_⟩
          · intro id hid
            rw [← hst] at hid
            exact hents0 id hid
          · intro r hr
            rw [← hst] at hr
            have hr2 : r ∈ (relateLoop st0.relations rels).1 := by
              rw [hrel]
              exact hr
            rcases relateLoop_facts rels st0.relations r hr2 with h2 | h2
            · exact Or.inl (hrels0 ▸ h2)
            · exact Or.inr h2
          · intro hcontra
            exact (Bool.false_ne_true hcontra).elim
      · have hrun2 : ((st0, some RemErr.provider) : Store × Option RemErr)
            = (st1, some RemErr.provider) := hrun
        have hst : st0 = st1 := congrArg Prod.fst hrun2
        subst hst
        exact ⟨hents0, fun r hr => Or.inl (hrels0 ▸ hr), fun _ => hrels0⟩
    · rw [if_neg hval] at hrun
      exact absurd (congrArg Prod.snd hrun) (by simp)

/-- Witness for `remember_failfast`: a batch containing an entity with a
blank id fails validation and commits nothing. -/
theorem remember_failfast_witness :
    rememberModel (fun _ => some [1]) none 0 ⟨[], []⟩
      [⟨"", "x", none, none, none, none, none, none⟩] []
      = (⟨[], []⟩, some RemErr.validation) := by
  exact (remember_failfast (fun _ => some [1]) none 0 ⟨[], []⟩
    [⟨"", "x", none, none, none, none, none, none⟩] []).1 (by decide)


end Memcp
